import Mathlib

/-!
Shallow embedding of the `proptest-arbitrary-interop` crate (`src/lib.rs`).

The crate adapts a byte-buffer-driven value constructor (an
`arbitrary::Arbitrary` implementation) into a proptest strategy with
shrinking.  The shrink tracker `ArbValueTree` owns a byte buffer, the
current value `curr`, an optional one-step undo slot `prev`, and a
prefix-length cursor `next`.

The constructor `A::arbitrary` over an `Unstructured` wrapping a byte
slice is modelled as an abstract function `gen : List Nat → Except
ArbError A` (deterministic and pure, exactly as the crate assumes).
Byte values are never inspected by the tracker itself, so bytes are
modelled as `Nat`.
-/

/-- The error type of the `arbitrary` crate (`arbitrary::Error`); the code
only ever matches on `IncorrectFormat` specially. -/
inductive ArbError where
  | emptyChoose
  | incorrectFormat
  | notEnoughData
deriving DecidableEq, Repr

/-- The shrink tracker `ArbValueTree<A>` from `src/lib.rs`: owned buffer,
current value, optional previous value, prefix-length cursor. -/
structure ArbValueTree (A : Type) where
  bytes : List Nat
  curr : A
  prev : Option A
  next : Nat
deriving Repr

/-- `ArbValueTree::gen_one_with_size`: run the constructor on the slice
`bytes[0..size]`.  In Rust the slice expression panics when
`size > bytes.len()`; here `List.take` is total, and the panic behaviour
is modelled separately by `gen_one_checked` below. -/
def gen_one_with_size {A : Type} (gen : List Nat → Except ArbError A)
    (bytes : List Nat) (size : Nat) : Except ArbError A :=
  gen (bytes.take size)

/-- `ValueTree::current`: clone of the current value. -/
def ArbValueTree.current {A : Type} (t : ArbValueTree A) : A :=
  t.curr

/-- `ValueTree::complicate`: restore `prev` into `curr` if present.
Returns the Rust `bool` together with the post-state. -/
def ArbValueTree.complicate {A : Type} (t : ArbValueTree A) :
    Bool × ArbValueTree A :=
  match t.prev with
  | some p => (true, { t with curr := p, prev := none })
  | none => (false, t)

/-- `ValueTree::simplify`: decrement `next` and retry construction on the
smaller prefix.  Returns the Rust `bool` together with the post-state. -/
def ArbValueTree.simplify {A : Type} (gen : List Nat → Except ArbError A)
    (t : ArbValueTree A) : Bool × ArbValueTree A :=
  if t.next = 0 then
    (false, t)
  else
    match gen_one_with_size gen t.bytes (t.next - 1) with
    | Except.ok simpler =>
      (true, { t with next := t.next - 1, prev := some t.curr, curr := simpler })
    | Except.error _ =>
      (false, { t with next := t.next - 1 })

/-- `ArbValueTree::new`: build a tracker from an owned buffer, constructing
the initial value from the full buffer and propagating any error. -/
def ArbValueTree.new {A : Type} (gen : List Nat → Except ArbError A)
    (bytes : List Nat) : Except ArbError (ArbValueTree A) :=
  match gen_one_with_size gen bytes bytes.length with
  | Except.ok curr =>
    Except.ok { bytes := bytes, curr := curr, prev := none, next := bytes.length }
  | Except.error e => Except.error e

/-- Outcome of `ArbStrategy::new_tree`: a tracker, a fatal error, or the
host framework's local-rejection budget running out (`reject_local`
returning `Err`). -/
inductive NewTreeResult (A : Type) where
  | ok (t : ArbValueTree A)
  | fatal (e : ArbError)
  | rejectLimitExceeded
deriving Repr

/-- `ArbStrategy::new_tree`: loop drawing fresh random buffers.  The host
runner is modelled by `draws` (the successive buffers its RNG fills,
indexed from `idx`) and `budget` (how many further local rejections
`TestRunner::reject_local` accepts before returning an error). -/
def new_tree {A : Type} (gen : List Nat → Except ArbError A)
    (draws : Nat → List Nat) : Nat → Nat → NewTreeResult A
  | idx, 0 =>
    match ArbValueTree.new gen (draws idx) with
    | Except.ok v => NewTreeResult.ok v
    | Except.error ArbError.incorrectFormat => NewTreeResult.rejectLimitExceeded
    | Except.error e => NewTreeResult.fatal e
  | idx, b + 1 =>
    match ArbValueTree.new gen (draws idx) with
    | Except.ok v => NewTreeResult.ok v
    | Except.error ArbError.incorrectFormat => new_tree gen draws (idx + 1) b
    | Except.error e => NewTreeResult.fatal e

/-- The public operations the host shrink loop may invoke on a tracker. -/
inductive Op where
  | simplifyOp
  | complicateOp
  | currentOp
deriving DecidableEq, Repr

/-- Post-state of one public operation (`current` does not mutate). -/
def runOp {A : Type} (gen : List Nat → Except ArbError A)
    (t : ArbValueTree A) : Op → ArbValueTree A
  | Op.simplifyOp => (t.simplify gen).2
  | Op.complicateOp => t.complicate.2
  | Op.currentOp => t

/-- Post-state of a sequence of public operations. -/
def runOps {A : Type} (gen : List Nat → Except ArbError A)
    (t : ArbValueTree A) : List Op → ArbValueTree A
  | [] => t
  | op :: ops => runOps gen (runOp gen t op) ops

/-- The `bool` an operation reports (`current` reported as `false`,
it has no boolean result). -/
def opResult {A : Type} (gen : List Nat → Except ArbError A)
    (t : ArbValueTree A) : Op → Bool
  | Op.simplifyOp => (t.simplify gen).1
  | Op.complicateOp => t.complicate.1
  | Op.currentOp => false

/-- The event trace of a sequence of operations: each operation paired
with the boolean it returned. -/
def events {A : Type} (gen : List Nat → Except ArbError A)
    (t : ArbValueTree A) : List Op → List (Op × Bool)
  | [] => []
  | op :: ops => (op, opResult gen t op) :: events gen (runOp gen t op) ops

/-- One step of the specification-level `prev`-presence automaton: a
successful simplify sets it, any complicate clears it, everything else
leaves it alone. -/
def prevStep (acc : Bool) : Op × Bool → Bool
  | (Op.simplifyOp, true) => true
  | (Op.complicateOp, _) => false
  | _ => acc

/-- Specification-level predicate: is `prev` present after this event
trace (starting from creation, where it is absent)? -/
def prevPresent (es : List (Op × Bool)) : Bool :=
  es.foldl prevStep false

/-- Iterate `simplify` `k` times, keeping only the state. -/
def simplifySteps {A : Type} (gen : List Nat → Except ArbError A)
    (t : ArbValueTree A) : Nat → ArbValueTree A
  | 0 => t
  | k + 1 => ((simplifySteps gen t k).simplify gen).2

/-- Boolean returned by the `(i+1)`-th call in a run of repeated
`simplify` calls starting from `t`. -/
def callResult {A : Type} (gen : List Nat → Except ArbError A)
    (t : ArbValueTree A) (i : Nat) : Bool :=
  ((simplifySteps gen t i).simplify gen).1

/-- Bounds-checked slice `bytes[0..size]`: `none` models the Rust panic
on an out-of-range index. -/
def sliceTo (bytes : List Nat) (size : Nat) : Option (List Nat) :=
  if size ≤ bytes.length then some (bytes.take size) else none

/-- `gen_one_with_size` with the Rust slice bounds check made explicit:
`none` models a panic. -/
def gen_one_checked {A : Type} (gen : List Nat → Except ArbError A)
    (bytes : List Nat) (size : Nat) : Option (Except ArbError A) :=
  (sliceTo bytes size).map gen

/-- `simplify` with the slice bounds check made explicit. -/
def simplifyChecked {A : Type} (gen : List Nat → Except ArbError A)
    (t : ArbValueTree A) : Option (Bool × ArbValueTree A) :=
  if t.next = 0 then
    some (false, t)
  else
    match gen_one_checked gen t.bytes (t.next - 1) with
    | none => none
    | some (Except.ok simpler) =>
      some (true, { t with next := t.next - 1, prev := some t.curr, curr := simpler })
    | some (Except.error _) =>
      some (false, { t with next := t.next - 1 })

/-- `ArbValueTree::new` with the slice bounds check made explicit. -/
def newChecked {A : Type} (gen : List Nat → Except ArbError A)
    (bytes : List Nat) : Option (Except ArbError (ArbValueTree A)) :=
  match gen_one_checked gen bytes bytes.length with
  | none => none
  | some (Except.ok curr) =>
    some (Except.ok { bytes := bytes, curr := curr, prev := none, next := bytes.length })
  | some (Except.error e) => some (Except.error e)

/-- One public operation with the slice bounds check made explicit. -/
def runOpChecked {A : Type} (gen : List Nat → Except ArbError A)
    (t : ArbValueTree A) : Op → Option (ArbValueTree A)
  | Op.simplifyOp => (simplifyChecked gen t).map Prod.snd
  | Op.complicateOp => some t.complicate.2
  | Op.currentOp => some t

/-- A sequence of public operations with bounds checks made explicit. -/
def runOpsChecked {A : Type} (gen : List Nat → Except ArbError A)
    (t : ArbValueTree A) : List Op → Option (ArbValueTree A)
  | [] => some t
  | op :: ops =>
    match runOpChecked gen t op with
    | none => none
    | some t2 => runOpsChecked gen t2 ops

/- Concrete constructors and trackers used by witnesses and
counterexamples.  `cgenOk` accepts any buffer and reports its length;
`cgenPos` requires a nonempty buffer; `cgenBad` always fails fatally;
`cgenFmtShort` rejects the empty buffer as malformed. -/

def cgenOk : List Nat → Except ArbError Nat :=
  fun l => Except.ok l.length

def cgenPos : List Nat → Except ArbError Nat :=
  fun l => if l.length = 0 then Except.error ArbError.notEnoughData else Except.ok l.length

def cgenBad : List Nat → Except ArbError Nat :=
  fun _ => Except.error ArbError.emptyChoose

def cgenFmtShort : List Nat → Except ArbError Nat :=
  fun l => if l.length = 0 then Except.error ArbError.incorrectFormat else Except.ok l.length

def c9draws : Nat → List Nat :=
  fun i => if i = 0 then [] else [9]

def tNext0 : ArbValueTree Nat :=
  { bytes := [5, 6], curr := 2, prev := none, next := 0 }

def tNext2 : ArbValueTree Nat :=
  { bytes := [5, 6], curr := 2, prev := none, next := 2 }

def tPrev : ArbValueTree Nat :=
  { bytes := [5, 6], curr := 1, prev := some 2, next := 1 }

def tEmpty : ArbValueTree Nat :=
  { bytes := [], curr := 0, prev := none, next := 0 }

def tOne : ArbValueTree Nat :=
  { bytes := [9], curr := 1, prev := none, next := 1 }

/- ---------------------------------------------------------------- -/
/- Shared helper lemmas.                                            -/
/- ---------------------------------------------------------------- -/

/-- Fields of a tracker freshly built by `ArbValueTree.new`. -/
theorem new_ok_fields {A : Type} (gen : List Nat → Except ArbError A)
    (b : List Nat) (t : ArbValueTree A)
    (h : ArbValueTree.new gen b = Except.ok t) :
    t.bytes = b ∧ t.prev = none ∧ t.next = b.length := by
  unfold ArbValueTree.new at h
  cases hg : gen_one_with_size gen b b.length with
  | ok v => rw [hg] at h; injection h with h; subst h; exact ⟨rfl, rfl, rfl⟩
  | error e => rw [hg] at h; cases h

/-- `simplify` never increases `next` and never touches `bytes`. -/
theorem simplify_next_le {A : Type} (gen : List Nat → Except ArbError A)
    (t : ArbValueTree A) :
    (t.simplify gen).2.next ≤ t.next ∧ (t.simplify gen).2.bytes = t.bytes := by
  unfold ArbValueTree.simplify
  by_cases h : t.next = 0
  · simp [h]
  · simp only [h, if_false]
    cases gen_one_with_size gen t.bytes (t.next - 1) with
    | ok v => exact ⟨Nat.sub_le _ _, rfl⟩
    | error e => exact ⟨Nat.sub_le _ _, rfl⟩

/-- `complicate` touches neither `next` nor `bytes`. -/
theorem complicate_next_eq {A : Type} (t : ArbValueTree A) :
    t.complicate.2.next = t.next ∧ t.complicate.2.bytes = t.bytes := by
  unfold ArbValueTree.complicate
  cases t.prev <;> simp

/-- Any single public operation never increases `next` and never touches
`bytes`. -/
theorem runOp_next_le {A : Type} (gen : List Nat → Except ArbError A)
    (t : ArbValueTree A) (op : Op) :
    (runOp gen t op).next ≤ t.next ∧ (runOp gen t op).bytes = t.bytes := by
  cases op with
  | simplifyOp => exact simplify_next_le gen t
  | complicateOp => exact ⟨Nat.le_of_eq (complicate_next_eq t).1, (complicate_next_eq t).2⟩
  | currentOp => exact ⟨Nat.le_refl _, rfl⟩

/-- The invariant `next ≤ bytes.length` is preserved by every sequence of
public operations, and `bytes` never changes. -/
theorem runOps_inv {A : Type} (gen : List Nat → Except ArbError A) :
    ∀ (ops : List Op) (t : ArbValueTree A), t.next ≤ t.bytes.length →
      (runOps gen t ops).next ≤ (runOps gen t ops).bytes.length ∧
      (runOps gen t ops).bytes = t.bytes := by
  intro ops
  induction ops with
  | nil => intro t h; exact ⟨h, rfl⟩
  | cons op ops ih =>
    intro t h
    have hstep := runOp_next_le gen t op
    have h2 : (runOp gen t op).next ≤ (runOp gen t op).bytes.length := by
      rw [hstep.2]; exact Nat.le_trans hstep.1 h
    have := ih (runOp gen t op) h2
    exact ⟨this.1, by rw [runOps]; rw [this.2, hstep.2]⟩

/- ---------------------------------------------------------------- -/
/- Claim theorems.                                                  -/
/- ---------------------------------------------------------------- -/

/-- C1: `simplify` returns `false` without mutation when `next = 0`;
otherwise it decrements `next` and attempts construction on the prefix
of length `next - 1`: on success it moves `curr` into `prev`, installs
the new value, and returns `true`; on failure of either error kind it
leaves `curr`/`prev` (and `bytes`) untouched, returns `false`, and
`next` stays decremented. -/
theorem simplify_spec {A : Type} (gen : List Nat → Except ArbError A)
    (t : ArbValueTree A) :
    (t.next = 0 → t.simplify gen = (false, t)) ∧
    (∀ v, t.next ≠ 0 → gen_one_with_size gen t.bytes (t.next - 1) = Except.ok v →
      t.simplify gen =
        (true, { t with next := t.next - 1, prev := some t.curr, curr := v })) ∧
    (∀ e, t.next ≠ 0 → gen_one_with_size gen t.bytes (t.next - 1) = Except.error e →
      t.simplify gen = (false, { t with next := t.next - 1 })) := by
  refine ⟨fun h => ?_, fun v h hg => ?_, fun e h hg => ?_⟩
  · simp [ArbValueTree.simplify, h]
  · simp [ArbValueTree.simplify, h, hg]
  · simp [ArbValueTree.simplify, h, hg]

theorem simplify_spec_witness :
    tNext0.simplify cgenOk = (false, tNext0) ∧
    tNext2.simplify cgenOk =
      (true, { tNext2 with next := 1, prev := some 2, curr := 1 }) ∧
    tNext2.simplify cgenBad = (false, { tNext2 with next := 1 }) :=
  ⟨(simplify_spec cgenOk tNext0).1 rfl,
   (simplify_spec cgenOk tNext2).2.1 1 (by decide) rfl,
   (simplify_spec cgenBad tNext2).2.2 ArbError.emptyChoose (by decide) rfl⟩

/-- C2: `complicate` moves `prev` into `curr` and clears `prev` when
`prev` is present, returning `true`; it returns `false` without mutation
when `prev` is empty; and a second consecutive `complicate` always
returns `false` without mutation. -/
theorem complicate_spec {A : Type} (t : ArbValueTree A) :
    (∀ p, t.prev = some p → t.complicate = (true, { t with curr := p, prev := none })) ∧
    (t.prev = none → t.complicate = (false, t)) ∧
    t.complicate.2.complicate = (false, t.complicate.2) := by
  refine ⟨fun p h => ?_, fun h => ?_, ?_⟩
  · simp [ArbValueTree.complicate, h]
  · simp [ArbValueTree.complicate, h]
  · cases h : t.prev <;> simp [ArbValueTree.complicate, h]

theorem complicate_spec_witness :
    tPrev.complicate = (true, { tPrev with curr := 2, prev := none }) ∧
    tNext2.complicate = (false, tNext2) ∧
    tPrev.complicate.2.complicate = (false, tPrev.complicate.2) :=
  ⟨(complicate_spec tPrev).1 2 rfl,
   (complicate_spec tNext2).2.1 rfl,
   (complicate_spec tPrev).2.2⟩

/-- C3: `ArbValueTree.new` on buffer `b` sets `next` to `b.length`, sets
`curr` to the constructor's result on the full buffer, sets `prev` to
`none`, and propagates any construction error to the caller. -/
theorem new_spec {A : Type} (gen : List Nat → Except ArbError A) (b : List Nat) :
    (∀ v, gen b = Except.ok v →
      ArbValueTree.new gen b =
        Except.ok { bytes := b, curr := v, prev := none, next := b.length }) ∧
    (∀ e, gen b = Except.error e → ArbValueTree.new gen b = Except.error e) := by
  constructor
  · intro v h
    simp [ArbValueTree.new, gen_one_with_size, List.take_length, h]
  · intro e h
    simp [ArbValueTree.new, gen_one_with_size, List.take_length, h]

theorem new_spec_witness :
    ArbValueTree.new cgenOk [7] =
      Except.ok { bytes := [7], curr := 1, prev := none, next := 1 } ∧
    ArbValueTree.new cgenBad [7] = Except.error ArbError.emptyChoose :=
  ⟨(new_spec cgenOk [7]).1 1 rfl,
   (new_spec cgenBad [7]).2 ArbError.emptyChoose rfl⟩

/- Helper lemmas shared by several developments below. -/

/-- `simplify` at an exhausted cursor is a pure no-op returning `false`. -/
theorem simplify_zero {A : Type} (gen : List Nat → Except ArbError A)
    (t : ArbValueTree A) (h : t.next = 0) : t.simplify gen = (false, t) := by
  simp [ArbValueTree.simplify, h]

/-- A `simplify` call that returns `true` started from a nonzero cursor and
decremented it by one. -/
theorem simplify_true_next {A : Type} (gen : List Nat → Except ArbError A)
    (t : ArbValueTree A) (h : (t.simplify gen).1 = true) :
    t.next ≠ 0 ∧ (t.simplify gen).2.next = t.next - 1 := by
  unfold ArbValueTree.simplify at h ⊢
  by_cases h0 : t.next = 0
  · simp [h0] at h
  · cases hg : gen_one_with_size gen t.bytes (t.next - 1) with
    | ok v => simp [h0, hg]
    | error e => simp [h0, hg] at h

/-- The specification automaton `prevStep` tracks the presence of `prev`
across one public operation. -/
theorem prevStep_runOp {A : Type} (gen : List Nat → Except ArbError A)
    (t : ArbValueTree A) (op : Op) :
    (runOp gen t op).prev.isSome = prevStep t.prev.isSome (op, opResult gen t op) := by
  cases op with
  | simplifyOp =>
    unfold runOp opResult
    by_cases h0 : t.next = 0
    · simp [simplify_zero gen t h0, prevStep]
    · cases hg : gen_one_with_size gen t.bytes (t.next - 1) with
      | ok v => simp [ArbValueTree.simplify, h0, hg, prevStep]
      | error e => simp [ArbValueTree.simplify, h0, hg, prevStep]
  | complicateOp =>
    unfold runOp opResult
    cases h : t.prev <;> simp [ArbValueTree.complicate, h, prevStep]
  | currentOp => rfl

/-- The presence of `prev` after a run equals the fold of `prevStep` over
the run's event trace. -/
theorem prev_present_trace {A : Type} (gen : List Nat → Except ArbError A) :
    ∀ (ops : List Op) (t : ArbValueTree A),
      (runOps gen t ops).prev.isSome = (events gen t ops).foldl prevStep t.prev.isSome := by
  intro ops
  induction ops with
  | nil => intro t; rfl
  | cons op ops ih =>
    intro t
    rw [runOps, events, List.foldl_cons, ← prevStep_runOp gen t op]
    exact ih (runOp gen t op)

/-- If the first `k` repeated `simplify` calls all return `true`, the cursor
has gone down by exactly `k`. -/
theorem next_after_true_calls {A : Type} (gen : List Nat → Except ArbError A)
    (t : ArbValueTree A) :
    ∀ k, (∀ j, j < k → callResult gen t j = true) →
      (simplifySteps gen t k).next + k = t.next := by
  intro k
  induction k with
  | zero => simp [simplifySteps]
  | succ k ih =>
    intro hall
    have hk : ((simplifySteps gen t k).simplify gen).1 = true :=
      hall k (Nat.lt_succ_self k)
    have h2 := simplify_true_next gen (simplifySteps gen t k) hk
    have hne := h2.1
    have ihk := ih (fun j hj => hall j (Nat.lt_succ_of_lt hj))
    rw [simplifySteps, h2.2]
    omega

/-- In a run of repeated `simplify` calls, some call among the first
`t.next + 1` returns `false`. -/
theorem exists_false_call {A : Type} (gen : List Nat → Except ArbError A)
    (t : ArbValueTree A) :
    ∃ k, k ≤ t.next ∧ callResult gen t k = false := by
  by_cases hall : ∀ j, j < t.next → callResult gen t j = true
  · refine ⟨t.next, Nat.le_refl _, ?_⟩
    have hsum := next_after_true_calls gen t t.next hall
    have h0 : (simplifySteps gen t t.next).next = 0 := by omega
    unfold callResult
    rw [simplify_zero gen _ h0]
  · push_neg at hall
    obtain ⟨j, hj, hjf⟩ := hall
    refine ⟨j, Nat.le_of_lt hj, ?_⟩
    cases hcb : callResult gen t j
    · rfl
    · exact absurd hcb hjf

/-- The bounds-checked `simplify` agrees with (never panics relative to)
the unchecked one whenever `next ≤ bytes.length`. -/
theorem simplifyChecked_eq {A : Type} (gen : List Nat → Except ArbError A)
    (t : ArbValueTree A) (h : t.next ≤ t.bytes.length) :
    simplifyChecked gen t = some (t.simplify gen) := by
  unfold simplifyChecked ArbValueTree.simplify
  by_cases h0 : t.next = 0
  · simp [h0]
  · have hle : t.next - 1 ≤ t.bytes.length := Nat.le_trans (Nat.sub_le _ _) h
    simp only [h0, if_false, gen_one_checked, sliceTo, if_pos hle, Option.map_some']
    cases hg : gen (t.bytes.take (t.next - 1)) with
    | ok v => simp [gen_one_with_size, hg]
    | error e => simp [gen_one_with_size, hg]

/-- The bounds-checked creation never panics: the initial slice takes the
whole buffer. -/
theorem newChecked_eq {A : Type} (gen : List Nat → Except ArbError A)
    (b : List Nat) : newChecked gen b = some (ArbValueTree.new gen b) := by
  unfold newChecked ArbValueTree.new gen_one_checked gen_one_with_size sliceTo
  rw [List.take_length, if_pos (Nat.le_refl b.length), Option.map_some']
  cases hg : gen b with
  | ok v => simp [hg]
  | error e => simp [hg]

/-- The bounds-checked single operation never panics while the invariant
`next ≤ bytes.length` holds. -/
theorem runOpChecked_eq {A : Type} (gen : List Nat → Except ArbError A)
    (t : ArbValueTree A) (op : Op) (h : t.next ≤ t.bytes.length) :
    runOpChecked gen t op = some (runOp gen t op) := by
  cases op with
  | simplifyOp => simp [runOpChecked, runOp, simplifyChecked_eq gen t h]
  | complicateOp => rfl
  | currentOp => rfl

/-- The bounds-checked run never panics while the invariant holds. -/
theorem runOpsChecked_eq {A : Type} (gen : List Nat → Except ArbError A) :
    ∀ (ops : List Op) (t : ArbValueTree A), t.next ≤ t.bytes.length →
      runOpsChecked gen t ops = some (runOps gen t ops) := by
  intro ops
  induction ops with
  | nil => intro t h; rfl
  | cons op ops ih =>
    intro t h
    rw [runOpsChecked, runOps, runOpChecked_eq gen t op h]
    have hstep := runOp_next_le gen t op
    exact ih (runOp gen t op) (by rw [hstep.2]; exact Nat.le_trans hstep.1 h)

/-- C4 (counterexample): after two consecutive successful `simplify` calls
from creation (so two simplifications since creation and no undo), `prev`
is still present — refuting "present exactly when exactly one
simplification has occurred since the last undo or since creation". -/
theorem two_simplifies_prev_still_present :
    ArbValueTree.new cgenOk [5, 6] = Except.ok tNext2 ∧
    opResult cgenOk tNext2 Op.simplifyOp = true ∧
    opResult cgenOk (runOp cgenOk tNext2 Op.simplifyOp) Op.simplifyOp = true ∧
    (runOps cgenOk tNext2 [Op.simplifyOp, Op.simplifyOp]).prev.isSome = true :=
  ⟨rfl, rfl, rfl, rfl⟩

/-- C4 (amended): in every reachable tracker state, `prev` is present
exactly when at least one successful `simplify` has occurred since the
last `complicate` call or since creation — formally, `prev.isSome` equals
the fold of the automaton that is set by a successful simplify and
cleared by any complicate over the run's event trace. -/
theorem prev_present_iff {A : Type} (gen : List Nat → Except ArbError A)
    (b : List Nat) (t0 : ArbValueTree A) (ops : List Op)
    (h : ArbValueTree.new gen b = Except.ok t0) :
    (runOps gen t0 ops).prev.isSome = prevPresent (events gen t0 ops) := by
  obtain ⟨-, hp, -⟩ := new_ok_fields gen b t0 h
  rw [prevPresent, prev_present_trace gen ops t0, hp]
  rfl

theorem prev_present_iff_witness :
    (runOps cgenOk tOne [Op.simplifyOp]).prev.isSome =
      prevPresent (events cgenOk tOne [Op.simplifyOp]) :=
  prev_present_iff cgenOk [9] tOne [Op.simplifyOp] rfl

/-- C5: after any successful `simplify`, one `complicate` succeeds and
restores `current()` to the value reported immediately before that
simplify; a second consecutive `complicate` returns `false` and leaves
`current()` unchanged. -/
theorem single_step_undo {A : Type} (gen : List Nat → Except ArbError A)
    (t : ArbValueTree A) (h : (t.simplify gen).1 = true) :
    (t.simplify gen).2.complicate.1 = true ∧
    (t.simplify gen).2.complicate.2.current = t.current ∧
    (t.simplify gen).2.complicate.2.complicate.1 = false ∧
    (t.simplify gen).2.complicate.2.complicate.2.current =
      (t.simplify gen).2.complicate.2.current := by
  unfold ArbValueTree.simplify at h ⊢
  by_cases h0 : t.next = 0
  · simp [h0] at h
  · cases hg : gen_one_with_size gen t.bytes (t.next - 1) with
    | ok v => simp [h0, hg, ArbValueTree.complicate, ArbValueTree.current]
    | error e => simp [h0, hg] at h

theorem single_step_undo_witness :
    (tNext2.simplify cgenOk).2.complicate.1 = true ∧
    (tNext2.simplify cgenOk).2.complicate.2.current = tNext2.current ∧
    (tNext2.simplify cgenOk).2.complicate.2.complicate.1 = false ∧
    (tNext2.simplify cgenOk).2.complicate.2.complicate.2.current =
      (tNext2.simplify cgenOk).2.complicate.2.current :=
  single_step_undo cgenOk tNext2 rfl

/-- C6: along every sequence of public operations from creation, `next`
never increases at any step, and always satisfies
`next ≤ bytes.length` (the buffer length, which never changes). -/
theorem next_monotone_bounded {A : Type} (gen : List Nat → Except ArbError A)
    (b : List Nat) (t0 : ArbValueTree A) (ops : List Op) (op : Op)
    (h : ArbValueTree.new gen b = Except.ok t0) :
    (runOp gen (runOps gen t0 ops) op).next ≤ (runOps gen t0 ops).next ∧
    (runOps gen t0 ops).next ≤ (runOps gen t0 ops).bytes.length ∧
    (runOps gen t0 ops).bytes = b := by
  obtain ⟨hb, -, hn⟩ := new_ok_fields gen b t0 h
  have h0 : t0.next ≤ t0.bytes.length := by rw [hb, hn]
  have hinv := runOps_inv gen ops t0 h0
  exact ⟨(runOp_next_le gen _ op).1, hinv.1, by rw [hinv.2, hb]⟩

theorem next_monotone_bounded_witness :
    (runOp cgenOk (runOps cgenOk tNext2 [Op.simplifyOp]) Op.simplifyOp).next ≤
      (runOps cgenOk tNext2 [Op.simplifyOp]).next ∧
    (runOps cgenOk tNext2 [Op.simplifyOp]).next ≤
      (runOps cgenOk tNext2 [Op.simplifyOp]).bytes.length ∧
    (runOps cgenOk tNext2 [Op.simplifyOp]).bytes = [5, 6] :=
  next_monotone_bounded cgenOk [5, 6] tNext2 [Op.simplifyOp] Op.simplifyOp rfl

/-- C7 (counterexample): on the empty buffer, creation succeeds, the very
first `simplify` call already returns `false`, so the loop "call
`simplify` until it returns `false`" makes one call — more than
`bytes.length = 0` calls, refuting "at most `bytes.length` calls". -/
theorem first_false_call_exceeds_length :
    ArbValueTree.new cgenOk [] = Except.ok tEmpty ∧
    callResult cgenOk tEmpty 0 = false ∧
    ¬ (0 + 1 ≤ tEmpty.bytes.length) :=
  ⟨rfl, rfl, by decide⟩

/-- C7 (amended): from a freshly created tracker over a buffer of length
`n`, repeatedly calling `simplify` until it first returns `false`
terminates: the first `false` is call number `k + 1` for some `k ≤ n`,
so at most `n` calls return `true` and at most `n + 1` calls are made in
total. -/
theorem simplify_loop_terminates {A : Type} (gen : List Nat → Except ArbError A)
    (b : List Nat) (t0 : ArbValueTree A)
    (h : ArbValueTree.new gen b = Except.ok t0) :
    ∃ k, k ≤ b.length ∧ callResult gen t0 k = false ∧
      ∀ j, j < k → callResult gen t0 j = true := by
  obtain ⟨-, -, hn⟩ := new_ok_fields gen b t0 h
  obtain ⟨k0, hk0le, hk0f⟩ := exists_false_call gen t0
  have hex : ∃ k, callResult gen t0 k = false := ⟨k0, hk0f⟩
  refine ⟨Nat.find hex, ?_, Nat.find_spec hex, ?_⟩
  · exact Nat.le_trans (Nat.find_min' hex hk0f) (hk0le.trans (Nat.le_of_eq hn))
  · intro j hj
    have hmin := Nat.find_min hex hj
    cases hcb : callResult gen t0 j
    · exact absurd hcb hmin
    · rfl

theorem simplify_loop_terminates_witness :
    ∃ k, k ≤ ([9] : List Nat).length ∧ callResult cgenOk tOne k = false ∧
      ∀ j, j < k → callResult cgenOk tOne j = true :=
  simplify_loop_terminates cgenOk [9] tOne rfl

/-- C8: once `next = 0`, any number of further `simplify` calls leaves the
whole state (curr, prev, next, bytes) unchanged, and every one of those
calls returns `false`. -/
theorem simplify_noop_exhausted {A : Type} (gen : List Nat → Except ArbError A)
    (t : ArbValueTree A) (h : t.next = 0) (k : Nat) :
    simplifySteps gen t k = t ∧
    (simplifySteps gen t k).simplify gen = (false, t) := by
  induction k with
  | zero => exact ⟨rfl, simplify_zero gen t h⟩
  | succ k ih =>
    have h2 : simplifySteps gen t (k + 1) = t := by
      rw [simplifySteps, ih.2]
    exact ⟨h2, by rw [h2]; exact simplify_zero gen t h⟩

theorem simplify_noop_exhausted_witness :
    simplifySteps cgenOk tEmpty 3 = tEmpty ∧
    (simplifySteps cgenOk tEmpty 3).simplify cgenOk = (false, tEmpty) :=
  simplify_noop_exhausted cgenOk tEmpty rfl 3

/-- Unfolding equation for the `new_tree` retry loop. -/
theorem new_tree_eq {A : Type} (gen : List Nat → Except ArbError A)
    (draws : Nat → List Nat) (idx budget : Nat) :
    new_tree gen draws idx budget =
      match ArbValueTree.new gen (draws idx) with
      | Except.ok v => NewTreeResult.ok v
      | Except.error ArbError.incorrectFormat =>
        match budget with
        | 0 => NewTreeResult.rejectLimitExceeded
        | b + 1 => new_tree gen draws (idx + 1) b
      | Except.error e => NewTreeResult.fatal e := by
  cases budget with
  | zero => rw [new_tree]
  | succ b2 => rw [new_tree]

/-- C9: one iteration of `new_tree` — on construction success it returns
the tracker; on an `incorrectFormat` ("malformed input") error it signals
a local rejection and retries with the next drawn buffer, propagating a
failure exactly when the host's rejection budget is exhausted; on any
other construction error it fails fatally without retrying. -/
theorem new_tree_spec {A : Type} (gen : List Nat → Except ArbError A)
    (draws : Nat → List Nat) (idx budget : Nat) :
    (∀ v, ArbValueTree.new gen (draws idx) = Except.ok v →
      new_tree gen draws idx budget = NewTreeResult.ok v) ∧
    (ArbValueTree.new gen (draws idx) = Except.error ArbError.incorrectFormat →
      new_tree gen draws idx 0 = NewTreeResult.rejectLimitExceeded ∧
      ∀ b2, new_tree gen draws idx (b2 + 1) = new_tree gen draws (idx + 1) b2) ∧
    (∀ e, e ≠ ArbError.incorrectFormat →
      ArbValueTree.new gen (draws idx) = Except.error e →
      new_tree gen draws idx budget = NewTreeResult.fatal e) := by
  refine ⟨fun v h => ?_, fun h => ⟨?_, fun b2 => ?_⟩, fun e he h => ?_⟩
  · rw [new_tree_eq, h]
  · rw [new_tree_eq, h]
  · rw [new_tree_eq, h]
  · rw [new_tree_eq, h]
    cases e with
    | emptyChoose => rfl
    | incorrectFormat => exact absurd rfl he
    | notEnoughData => rfl

theorem new_tree_spec_witness :
    new_tree cgenFmtShort c9draws 0 0 = NewTreeResult.rejectLimitExceeded ∧
    new_tree cgenFmtShort c9draws 0 1 = new_tree cgenFmtShort c9draws 1 0 ∧
    new_tree cgenOk c9draws 1 3 = NewTreeResult.ok tOne ∧
    new_tree cgenBad c9draws 1 3 = NewTreeResult.fatal ArbError.emptyChoose :=
  ⟨((new_tree_spec cgenFmtShort c9draws 0 0).2.1 rfl).1,
   ((new_tree_spec cgenFmtShort c9draws 0 1).2.1 rfl).2 0,
   (new_tree_spec cgenOk c9draws 1 3).1 tOne rfl,
   (new_tree_spec cgenBad c9draws 1 3).2.2 ArbError.emptyChoose (by decide) rfl⟩

/-- C10: relative to the bounds-checked semantics in which an
out-of-range slice `bytes[0..size]` is a panic (`none`), creation and
every sequence of public operations on a tracker reachable from creation
never panic: the checked run returns exactly the unchecked run. -/
theorem no_out_of_bounds_slice {A : Type} (gen : List Nat → Except ArbError A)
    (b : List Nat) (t0 : ArbValueTree A) (ops : List Op)
    (h : ArbValueTree.new gen b = Except.ok t0) :
    newChecked gen b = some (ArbValueTree.new gen b) ∧
    runOpsChecked gen t0 ops = some (runOps gen t0 ops) := by
  refine ⟨newChecked_eq gen b, ?_⟩
  obtain ⟨hb, -, hn⟩ := new_ok_fields gen b t0 h
  exact runOpsChecked_eq gen ops t0 (by rw [hb, hn])

theorem no_out_of_bounds_slice_witness :
    newChecked cgenOk [5, 6] = some (ArbValueTree.new cgenOk [5, 6]) ∧
    runOpsChecked cgenOk tNext2 [Op.simplifyOp, Op.complicateOp, Op.simplifyOp] =
      some (runOps cgenOk tNext2 [Op.simplifyOp, Op.complicateOp, Op.simplifyOp]) :=
  no_out_of_bounds_slice cgenOk [5, 6] tNext2
    [Op.simplifyOp, Op.complicateOp, Op.simplifyOp] rfl
